import Mathlib

/-!
Verification development for `scripts/room-poll-check.py`: an incremental
polling agent that checks chat rooms for new messages, filters them by a
listening policy, detects actionable owner requests, posts bounded
acknowledgments, and appends new messages to an inbox file.

The Python source is shallowly embedded below.  Python strings are `String`
(a structure over `List Char`, so all operations compute), Python `set` is
`Finset String` (the `set` type guarantees membership semantics only — its
iteration order is hash-dependent and NOT insertion order, so wherever the
source calls `list(values)` on a set, the embedding takes the enumeration
order as an explicit input), and fallible effects (`subprocess.run`,
fetch/JSON parsing) are `Except String`.
-/

/-! ### Python string primitives -/

/-- Python whitespace characters for `str.strip()` (ASCII range; the source
only ever strips identifiers and message bodies). -/
def isPyWS (c : Char) : Bool :=
  c = ' ' || c = '\t' || c = '\n' || c = '\r' || c = '\x0b' || c = '\x0c'

/-- `str.strip()` on the underlying character list. -/
def stripChars (cs : List Char) : List Char :=
  ((cs.dropWhile isPyWS).reverse.dropWhile isPyWS).reverse

/-- Python `s.strip()`. -/
def pyStrip (s : String) : String := ⟨stripChars s.data⟩

/-- Python `s.lower()` (ASCII case folding, which covers the handles and
hint phrases the source compares). -/
def pyLower (s : String) : String := ⟨s.data.map Char.toLower⟩

/-- `needle` is a prefix of `hay` (character lists). -/
def listStarts : List Char → List Char → Bool
  | [], _ => true
  | _ :: _, [] => false
  | a :: xs, b :: ys => a == b && listStarts xs ys

/-- `needle` occurs as a contiguous substring of `hay` (character lists);
Python's `needle in hay`. -/
def listHas (n : List Char) : List Char → Bool
  | [] => n == []
  | c :: t => listStarts n (c :: t) || listHas n t

/-- Python `needle in hay` for strings. -/
def pyIn (needle hay : String) : Bool := listHas needle.data hay.data

/-- Python `s.startswith(p)`. -/
def strStarts (p s : String) : Bool := listStarts p.data s.data

/-- Python `s.lstrip("@")`: drop every leading `@`. -/
def lstripAt (s : String) : String := ⟨s.data.dropWhile (fun c => c = '@')⟩

/-- Python `s[:n]` (slicing by code point, as Python does). -/
def pyTake (s : String) (n : Nat) : String := ⟨s.data.take n⟩

/-- Python string truthiness fallback `a or b` (empty string is falsy). -/
def pyOrS (a b : String) : String := if a = "" then b else a

/-! ### Configuration

The source reads these from environment variables at import time; the
embedding passes them explicitly.  `LISTEN_MODE` is kept as a raw string
because the source compares it against literals and falls through to a
permissive default on unknown values. -/

structure Config where
  myHandles : List String
  ownerHandle : String
  targetHandle : String
  botHandles : List String
  listenMode : String
  ackEnabled : Bool
  rooms : List String
deriving DecidableEq

/-- `TASK_HINTS` from the source. -/
def TASK_HINTS : List String :=
  ["can you", "please", "need to", "check", "fix", "update", "review",
   "run", "deploy", "implement", "test", "restart", "install", "respond",
   "post", "pull", "push", "merge"]

/-! ### Pure predicates (`_extract_mentions`, `_is_bot`,
`_passes_listen_filter`, `_message_targets_me`, `_looks_like_task_request`,
`_should_ack`) -/

/-- Character class of the mention regex `@([a-zA-Z0-9_.-]+)`. -/
def isMentionChar (c : Char) : Bool :=
  (c ≥ 'a' && c ≤ 'z') || (c ≥ 'A' && c ≤ 'Z') || (c ≥ '0' && c ≤ '9') ||
    c = '_' || c = '.' || c = '-'

/-- Left-to-right non-overlapping scan of `re.findall(r"@([a-zA-Z0-9_.-]+)", text)`:
at each `@`, the capture is the maximal nonempty run of mention characters
that follows; scanning resumes after the run.  The scan consumes at least
one character per step, so running it with the input length as fuel is
exact (`findMentions` below); the explicit fuel keeps the recursion
structural. -/
def findMentionsFuel : Nat → List Char → List (List Char)
  | 0, _ => []
  | _ + 1, [] => []
  | fuel + 1, c :: rest =>
    let run := rest.takeWhile isMentionChar
    if c = '@' && run.length != 0 then
      run :: findMentionsFuel fuel (rest.drop run.length)
    else
      findMentionsFuel fuel rest

/-- The mention scan, with enough fuel to traverse the whole input. -/
def findMentions (cs : List Char) : List (List Char) :=
  findMentionsFuel cs.length cs

/-- `_extract_mentions`: the regex captures, each lowercased. -/
def extract_mentions (text : String) : List String :=
  (findMentions text.data).map (fun cs => ⟨cs.map Char.toLower⟩)

/-- `h.lower().lstrip("@")` — the normalization the source applies to
handles before comparing. -/
def normHandle (s : String) : String := lstripAt (pyLower s)

/-- `_is_bot`: resolved handle (`author_handle or handle or ""`) normalized
and looked up in the normalized bot-handle set, else the raw `handle`
checked for a leading `@`. -/
def is_bot (cfg : Config) (handle author_handle : String) : Bool :=
  let h := normHandle (pyOrS author_handle (pyOrS handle ""))
  if !cfg.botHandles.isEmpty && (cfg.botHandles.map normHandle).contains h then
    true
  else if strStarts "@" handle then
    true
  else
    false

/-- `_passes_listen_filter`. -/
def passes_listen_filter (cfg : Config) (handle author_handle body : String) : Bool :=
  if cfg.listenMode == "all" then true
  else if cfg.listenMode == "humans" then !(is_bot cfg handle author_handle)
  else if cfg.listenMode == "tagged" then
    let myShort := cfg.myHandles.map normHandle
    (extract_mentions body).any (fun m => myShort.contains m)
  else if cfg.listenMode == "owner" then
    pyIn cfg.ownerHandle (pyLower author_handle) || pyIn cfg.ownerHandle (pyLower handle)
  else true

/-- `_message_targets_me`. -/
def message_targets_me (cfg : Config) (body : String) : Bool :=
  let mentions := extract_mentions body
  let myShort := cfg.myHandles.map normHandle
  if !mentions.isEmpty then mentions.any (fun m => myShort.contains m)
  else true

/-- `_looks_like_task_request`. -/
def looks_like_task_request (body : String) : Bool :=
  let text := pyLower (pyStrip body)
  if text == "" then false
  else TASK_HINTS.any (fun hint => pyIn hint text)

/-- `_should_ack`. -/
def should_ack (cfg : Config) (handle author_handle body : String) : Bool :=
  let from_owner := pyIn cfg.ownerHandle (pyLower author_handle) ||
    pyIn cfg.ownerHandle (pyLower handle)
  if !from_owner then false
  else if !(message_targets_me cfg body) then false
  else looks_like_task_request body

/-! ### Persisted id sets (`_load_id_set`, `_save_id_set`)

A file is `Option (List Char)` (`none` = `FileNotFoundError`).  Because
the source hands a Python `set` to `_save_id_set`, the order in which
`list(values)` enumerates it is hash-dependent; the embedding therefore
takes the enumeration as an explicit `List String` argument. -/

/-- Split a character stream at `'\n'`, like iterating a Python text file
and then stripping each line (splitting yields one more piece than there
are newlines; trailing empty pieces are removed by the caller's filter). -/
def splitLines : List Char → List (List Char)
  | [] => [[]]
  | c :: rest =>
    if c = '\n' then [] :: splitLines rest
    else
      match splitLines rest with
      | [] => [[c]]
      | l :: ls => (c :: l) :: ls

/-- `_load_id_set`: `{line.strip() for line in f if line.strip()}`, empty
set when the file does not exist. -/
def load_id_set (file : Option (List Char)) : Finset String :=
  match file with
  | none => ∅
  | some cs =>
      ((((splitLines cs).map stripChars).filter (fun l => l ≠ [])).map
        (fun l => (⟨l⟩ : String))).toFinset

/-- Python `l[-k:]`: the last `k` elements — except that `l[-0:]` is the
whole list. -/
def pyLastSlice (l : List String) (k : Nat) : List String :=
  if k = 0 then l else l.drop (l.length - k)

/-- File contents produced by writing `v + "\n"` for each `v`. -/
def fileOfLines (lines : List String) : List Char :=
  (lines.map (fun v => v.data ++ ['\n'])).flatten

/-- `_save_id_set`: truncate the enumeration `list(values)` to its last
`keep_last` elements and write one line per value. -/
def save_id_set (values_enum : List String) (keep_last : Nat) : List Char :=
  fileOfLines (pyLastSlice values_enum keep_last)

/-! ### Acknowledgment poster (`_post_ack`)

`subprocess.run(..., check=False)` returns the completed process whatever
curl's exit status; only `check=True` would raise `CalledProcessError`.
(The library-level `timeout=15` can raise `TimeoutExpired`; being a
real-time behavior it is outside this embedding.)  The transport outcome
of each invocation is an explicit `CurlResult` input. -/

structure CurlResult where
  exitCode : Nat
  stdout : String
  stderr : String

/-- `subprocess.run`'s raise-on-failure semantics: with `check` set, a
nonzero exit status raises `CalledProcessError`; otherwise the completed
process is returned as-is. -/
def subprocessRun (check : Bool) (r : CurlResult) : Except String CurlResult :=
  if check && (r.exitCode != 0) then
    Except.error ("CalledProcessError " ++ toString r.exitCode)
  else
    Except.ok r

/-- `_post_ack`: run curl with `check=False` and discard the result. -/
def post_ack (room text : String) (tr : CurlResult) : Except String Unit :=
  match subprocessRun false tr with
  | Except.ok _ => Except.ok ()
  | Except.error e => Except.error e

/-- `f"@{OWNER_HANDLE} [{TARGET_HANDLE.lstrip('@')}] starting now. " "I will
report back when finished with results."` (adjacent literals concatenate). -/
def ackText (cfg : Config) : String :=
  "@" ++ cfg.ownerHandle ++ " [" ++ lstripAt cfg.targetHandle ++
    "] starting now. I will report back when finished with results."

/-! ### The polling pass (`main`)

A raw fetched message record: `msg.get(key, default)` is modelled with
`Option` fields (`none` = key absent / malformed).  `_fetch_room_messages`
is an external boundary (curl + `json.loads`, which can raise); it is an
oracle `String → Except String (List RawMsg)` — the `Except.error` side is
the exception a failed parse raises into `main`. -/

structure RawMsg where
  idRaw : Option String
  fromRaw : Option String
  authorRaw : Option String
  bodyRaw : Option String
  createdRaw : Option String

/-- `mid = str(msg.get("id", "")).strip()`. -/
def mid_of (m : RawMsg) : String := pyStrip (m.idRaw.getD "")

/-- One `_post_ack` invocation, as observed in the event log: the
identifier that triggered it, the room, and the text posted. -/
structure PostEvent where
  mid : String
  room : String
  text : String
deriving DecidableEq

/-- In-memory state of one pass of `main`: the two id sets, the
`new_msgs` buffer, and the log of `_post_ack` invocations. -/
structure PassState where
  seen : Finset String
  acked : Finset String
  newMsgs : List String
  posts : List PostEvent
deriving DecidableEq

/-- `f"[{ts}] [{room}] {author_handle}: {body[:400]}"`. -/
def fmtLine (ts room author body : String) : String :=
  "[" ++ ts ++ "] [" ++ room ++ "] " ++ author ++ ": " ++ body

/-- The body of `main`'s inner `for msg in msgs` loop.  `tro` supplies the
transport outcome of the (at most one) curl invocation for this message. -/
def processMessage (cfg : Config) (room : String) (tro : String → CurlResult)
    (st : PassState) (m : RawMsg) : Except String PassState :=
  let mid := mid_of m
  if mid = "" ∨ mid ∈ st.seen then Except.ok st
  else
    let st1 : PassState := { st with seen := insert mid st.seen }
    let handle := m.fromRaw.getD "?"
    let author_handle := m.authorRaw.getD handle
    if author_handle ∈ cfg.myHandles ∨ handle ∈ cfg.myHandles then Except.ok st1
    else
      let body := pyTake (m.bodyRaw.getD "") 1000
      let ts := pyTake (m.createdRaw.getD "") 19
      if passes_listen_filter cfg handle author_handle body = false then Except.ok st1
      else
        let st2 : PassState :=
          { st1 with newMsgs := st1.newMsgs ++ [fmtLine ts room author_handle (pyTake body 400)] }
        if cfg.ackEnabled = true ∧ mid ∉ st2.acked ∧
            should_ack cfg handle author_handle body = true then
          let st3 : PassState := { st2 with posts := st2.posts ++ [⟨mid, room, ackText cfg⟩] }
          match post_ack room (ackText cfg) (tro mid) with
          | Except.ok _ => Except.ok { st3 with acked := insert mid st3.acked }
          | Except.error e => Except.error e
        else Except.ok st2

/-- `for msg in msgs`, sequentially. -/
def processMsgs (cfg : Config) (room : String) (tro : String → CurlResult) :
    PassState → List RawMsg → Except String PassState
  | st, [] => Except.ok st
  | st, m :: ms => do
    let st' ← processMessage cfg room tro st m
    processMsgs cfg room tro st' ms

/-- `for room in ROOMS`: fetch, then process the returned messages. -/
def processRooms (cfg : Config) (tro : String → CurlResult)
    (fetch : String → Except String (List RawMsg)) :
    PassState → List String → Except String PassState
  | st, [] => Except.ok st
  | st, room :: rooms => do
    let msgs ← fetch room
    let st' ← processMsgs cfg room tro st msgs
    processRooms cfg tro fetch st' rooms

/-- A fetcher that always succeeds (a fixed set of channel messages). -/
def pureFetch (f : String → List RawMsg) : String → Except String (List RawMsg) :=
  fun room => Except.ok (f room)

/-- The chunks `main` appends to `NEW_FILE`: `nm + "\n---\n"` for each
buffered message, in reversed buffer order, only when the buffer is
non-empty. -/
def inboxWrites (newMsgs : List String) : List String :=
  if newMsgs = [] then []
  else newMsgs.reverse.map (fun nm => nm ++ "\n---\n")

/-- The terminal stdout signal: `"NEW"` when the buffer is non-empty,
else `"NONE"`. -/
def signal (newMsgs : List String) : String :=
  if newMsgs = [] then "NONE" else "NEW"

/-- Externally observable outcome of one invocation of `main` (when it
returns rather than raising): exit code, stdout lines, the id-set contents
handed to `_save_id_set` (`none` = save never reached), the chunks
appended to the inbox file, and the ack-post log. -/
structure RunResult where
  retCode : Nat
  stdoutLines : List String
  savedSeen : Option (Finset String)
  savedAcked : Option (Finset String)
  inboxOut : List String
  postLog : List PostEvent
deriving DecidableEq

/-- `main`: missing credential prints `"NONE"` and returns 0; otherwise
run the pass over all rooms, persist both id sets, append the reversed
buffer, and print the terminal signal.  An exception anywhere inside
propagates as `Except.error`. -/
def mainRun (cfg : Config) (apiKey : String)
    (fetch : String → Except String (List RawMsg)) (tro : String → CurlResult)
    (seen0 acked0 : Finset String) : Except String RunResult :=
  if apiKey = "" then
    Except.ok ⟨0, ["NONE"], none, none, [], []⟩
  else
    match processRooms cfg tro fetch ⟨seen0, acked0, [], []⟩ cfg.rooms with
    | Except.error e => Except.error e
    | Except.ok st =>
        Except.ok ⟨0, [signal st.newMsgs], some st.seen, some st.acked,
          inboxWrites st.newMsgs, st.posts⟩

/-- The `if __name__ == "__main__"` wrapper: `main`'s return value becomes
the exit status; any `Exception` is reported to stderr, `"NONE"` is
printed, and the process exits 0. -/
def topHandler (outcome : Except String RunResult) : Nat × List String :=
  match outcome with
  | Except.ok r => (r.retCode, r.stdoutLines)
  | Except.error _ => (0, ["NONE"])

/-- The whole process: exit status and stdout lines. -/
def program (cfg : Config) (apiKey : String)
    (fetch : String → Except String (List RawMsg)) (tro : String → CurlResult)
    (seen0 acked0 : Finset String) : Nat × List String :=
  topHandler (mainRun cfg apiKey fetch tro seen0 acked0)

/-! ### Repeated invocations

Successive scheduler invocations of the script communicate only through
the persisted id sets; `runMulti` threads their contents from pass to
pass (each pass starts with fresh `new_msgs` and an empty post log, as
each process start does) and concatenates the ack-post logs. -/

structure PassInput where
  fetch : String → List RawMsg
  tro : String → CurlResult

/-- Run a sequence of passes, threading `seen`/`acked` contents, returning
the final contents and the concatenated ack-post log. -/
def runMulti (cfg : Config) :
    List PassInput → Finset String × Finset String →
    Except String ((Finset String × Finset String) × List PostEvent)
  | [], s => Except.ok (s, [])
  | p :: ps, (sn, ak) => do
    let st ← processRooms cfg p.tro (pureFetch p.fetch) ⟨sn, ak, [], []⟩ cfg.rooms
    let (s2, log) ← runMulti cfg ps (st.seen, st.acked)
    Except.ok (s2, st.posts ++ log)

/-! ### Specification-side listen filter (for claim C8) -/

/-- The HUMANS_ONLY bot test exactly as the claim words it: the *sender's*
handle, normalized, is in the normalized bot-handle set, or the sender's
handle starts with the sigil character. -/
def sender_is_bot_spec (cfg : Config) (sender : String) : Bool :=
  (cfg.botHandles.map normHandle).contains (normHandle sender) || strStarts "@" sender

/-- The listen filter exactly as the claim words it (spec reading, for
comparison with `passes_listen_filter`). -/
def passes_listen_filter_spec (cfg : Config) (sender author_handle body : String) : Bool :=
  if cfg.listenMode == "all" then true
  else if cfg.listenMode == "humans" then !(sender_is_bot_spec cfg sender)
  else if cfg.listenMode == "tagged" then
    (extract_mentions body).any (fun m => (cfg.myHandles.map normHandle).contains m)
  else if cfg.listenMode == "owner" then
    pyIn (pyLower cfg.ownerHandle) (pyLower sender) ||
      pyIn (pyLower cfg.ownerHandle) (pyLower author_handle)
  else true

def c8Config : Config := ⟨[], "petrus", "@claudemm", ["bot"], "humans", true, []⟩

/-- Amended filter: bot set membership is tested on the author handle when
non-empty (else the sender handle), while the sigil test is on the sender. -/
def passes_listen_filter_amended (cfg : Config) (sender author_handle body : String) : Bool :=
  if cfg.listenMode == "all" then true
  else if cfg.listenMode == "humans" then
    !((cfg.botHandles.map normHandle).contains
        (normHandle (pyOrS author_handle (pyOrS sender ""))) ||
      strStarts "@" sender)
  else if cfg.listenMode == "tagged" then
    (extract_mentions body).any (fun m => (cfg.myHandles.map normHandle).contains m)
  else if cfg.listenMode == "owner" then
    pyIn (pyLower cfg.ownerHandle) (pyLower sender) ||
      pyIn (pyLower cfg.ownerHandle) (pyLower author_handle)
  else true

/-! ### Concrete witness data: one room, one actionable owner message,
a failing transport (curl exit code 7), acknowledgment enabled. -/

def wCfg : Config := ⟨["claudemm"], "petrus", "@claudemm", [], "all", true, ["room1"]⟩

def wMsg : RawMsg := ⟨some "m1", some "petrus", some "petrus", some "please fix", some "t"⟩

def wTr : String → CurlResult := fun _ => ⟨7, "", ""⟩

def wPass : PassInput := ⟨fun _ => [wMsg], wTr⟩

def wSt1 : PassState :=
  ⟨{"m1"}, {"m1"}, ["[t] [room1] petrus: please fix"], [⟨"m1", "room1", ackText wCfg⟩]⟩

/-! ### Helper lemmas and claim theorems -/

theorem post_ack_eq (room text : String) (tr : CurlResult) :
    post_ack room text tr = Except.ok () := rfl

theorem processMessage_tro (cfg : Config) (room : String) (tro tro' : String → CurlResult)
    (st : PassState) (m : RawMsg) :
    processMessage cfg room tro st m = processMessage cfg room tro' st m := by
  simp only [processMessage, post_ack_eq]

theorem processMessage_skip (cfg : Config) (room : String) (tro : String → CurlResult)
    (st : PassState) (m : RawMsg) (h : mid_of m = "" ∨ mid_of m ∈ st.seen) :
    processMessage cfg room tro st m = Except.ok st := by
  simp only [processMessage]
  rw [if_pos h]

theorem processMessage_total (cfg : Config) (room : String) (tro : String → CurlResult)
    (st : PassState) (m : RawMsg) :
    ∃ st' : PassState, processMessage cfg room tro st m = Except.ok st' ∧
      st.seen ⊆ st'.seen ∧
      st'.seen ⊆ st.seen ∪ {mid_of m} ∧
      (mid_of m ≠ "" → mid_of m ∈ st'.seen) ∧
      (∃ tail, st'.newMsgs = st.newMsgs ++ tail) ∧
      ((st'.acked = st.acked ∧ st'.posts = st.posts) ∨
        (mid_of m ∉ st.acked ∧ st'.acked = insert (mid_of m) st.acked ∧
          st'.posts = st.posts ++ [⟨mid_of m, room, ackText cfg⟩])) := by
  by_cases h1 : mid_of m = "" ∨ mid_of m ∈ st.seen
  · refine ⟨st, processMessage_skip cfg room tro st m h1, subset_rfl,
      Finset.subset_union_left, ?_, ⟨[], by simp⟩, Or.inl ⟨rfl, rfl⟩⟩
    intro hne
    rcases h1 with h | h
    · exact absurd h hne
    · exact h
  · have hmem : mid_of m ∈ insert (mid_of m) st.seen := Finset.mem_insert_self _ _
    have hsub : st.seen ⊆ insert (mid_of m) st.seen := Finset.subset_insert _ _
    have hsub2 : (insert (mid_of m) st.seen : Finset String) ⊆ st.seen ∪ {mid_of m} := by
      intro x hx
      rcases Finset.mem_insert.mp hx with h | h
      · exact Finset.mem_union_right _ (by simp [h])
      · exact Finset.mem_union_left _ h
    by_cases h2 : (m.authorRaw.getD (m.fromRaw.getD "?")) ∈ cfg.myHandles ∨
        (m.fromRaw.getD "?") ∈ cfg.myHandles
    · refine ⟨{ st with seen := insert (mid_of m) st.seen }, ?_, hsub, hsub2,
        fun _ => hmem, ⟨[], by simp⟩, Or.inl ⟨rfl, rfl⟩⟩
      simp only [processMessage]
      rw [if_neg h1, if_pos h2]
    · by_cases h3 : passes_listen_filter cfg (m.fromRaw.getD "?")
        (m.authorRaw.getD (m.fromRaw.getD "?")) (pyTake (m.bodyRaw.getD "") 1000) = false
      · refine ⟨{ st with seen := insert (mid_of m) st.seen }, ?_, hsub, hsub2,
          fun _ => hmem, ⟨[], by simp⟩, Or.inl ⟨rfl, rfl⟩⟩
        simp only [processMessage]
        rw [if_neg h1, if_neg h2, if_pos h3]
      · by_cases h4 : cfg.ackEnabled = true ∧ mid_of m ∉ st.acked ∧
            should_ack cfg (m.fromRaw.getD "?") (m.authorRaw.getD (m.fromRaw.getD "?"))
              (pyTake (m.bodyRaw.getD "") 1000) = true
        · refine ⟨⟨insert (mid_of m) st.seen, insert (mid_of m) st.acked,
            st.newMsgs ++ [fmtLine (pyTake (m.createdRaw.getD "") 19) room
              (m.authorRaw.getD (m.fromRaw.getD "?"))
              (pyTake (pyTake (m.bodyRaw.getD "") 1000) 400)],
            st.posts ++ [⟨mid_of m, room, ackText cfg⟩]⟩, ?_, hsub, hsub2,
            fun _ => hmem, ⟨_, rfl⟩, Or.inr ⟨h4.2.1, rfl, rfl⟩⟩
          simp only [processMessage, post_ack_eq]
          rw [if_neg h1, if_neg h2, if_neg h3, if_pos h4]
        · refine ⟨⟨insert (mid_of m) st.seen, st.acked,
            st.newMsgs ++ [fmtLine (pyTake (m.createdRaw.getD "") 19) room
              (m.authorRaw.getD (m.fromRaw.getD "?"))
              (pyTake (pyTake (m.bodyRaw.getD "") 1000) 400)],
            st.posts⟩, ?_, hsub, hsub2, fun _ => hmem, ⟨_, rfl⟩, Or.inl ⟨rfl, rfl⟩⟩
          simp only [processMessage]
          rw [if_neg h1, if_neg h2, if_neg h3, if_neg h4]

theorem processMsgs_total (cfg : Config) (room : String) (tro : String → CurlResult) :
    ∀ (ms : List RawMsg) (st : PassState),
    ∃ st' : PassState, processMsgs cfg room tro st ms = Except.ok st' ∧
      st.seen ⊆ st'.seen ∧
      st.acked ⊆ st'.acked ∧
      (∃ t, st'.newMsgs = st.newMsgs ++ t) ∧
      (∀ m ∈ ms, mid_of m = "" ∨ mid_of m ∈ st'.seen) ∧
      (∃ L, st'.posts = st.posts ++ L ∧ (L.map PostEvent.mid).Nodup ∧
        ∀ e ∈ L, e.mid ∉ st.acked ∧ e.mid ∈ st'.acked) := by
  intro ms
  induction ms with
  | nil =>
    intro st
    exact ⟨st, rfl, subset_rfl, subset_rfl, ⟨[], by simp⟩, by simp,
      ⟨[], by simp, List.nodup_nil, by simp⟩⟩
  | cons m ms ih =>
    intro st
    obtain ⟨st1, hpm, hseen1, _, hmid1, ⟨t1, hnew1⟩, hdich⟩ :=
      processMessage_total cfg room tro st m
    obtain ⟨st', hms, hseen2, hacked2, ⟨t2, hnew2⟩, hcov2, ⟨L2, hpost2, hnd2, hL2⟩⟩ :=
      ih st1
    have hacked1 : st.acked ⊆ st1.acked := by
      rcases hdich with ⟨ha, _⟩ | ⟨_, ha, _⟩
      · rw [ha]
      · rw [ha]; exact Finset.subset_insert _ _
    have heq : processMsgs cfg room tro st (m :: ms) = Except.ok st' := by
      show (do
        let st1 ← processMessage cfg room tro st m
        processMsgs cfg room tro st1 ms) = Except.ok st'
      rw [hpm]
      exact hms
    refine ⟨st', heq, hseen1.trans hseen2, hacked1.trans hacked2,
      ⟨t1 ++ t2, by rw [hnew2, hnew1, List.append_assoc]⟩, ?_, ?_⟩
    · intro mm hmm
      rcases List.mem_cons.mp hmm with h | h
      · subst h
        by_cases hm0 : mid_of mm = ""
        · exact Or.inl hm0
        · exact Or.inr (hseen2 (hmid1 hm0))
      · exact hcov2 mm h
    · rcases hdich with ⟨ha, hp⟩ | ⟨hnotack, ha, hp⟩
      · refine ⟨L2, by rw [hpost2, hp], hnd2, ?_⟩
        intro e he
        refine ⟨fun hc => (hL2 e he).1 ?_, (hL2 e he).2⟩
        rw [ha]; exact hc
      · refine ⟨⟨mid_of m, room, ackText cfg⟩ :: L2, ?_, ?_, ?_⟩
        · rw [hpost2, hp, List.append_assoc]
          rfl
        · simp only [List.map_cons, List.nodup_cons]
          refine ⟨?_, hnd2⟩
          intro hc
          rcases List.mem_map.mp hc with ⟨e, he, hemid⟩
          exact (hL2 e he).1 (by rw [hemid, ha]; exact Finset.mem_insert_self _ _)
        · intro e he
          rcases List.mem_cons.mp he with h | h
          · subst h
            exact ⟨hnotack, hacked2 (by rw [ha]; exact Finset.mem_insert_self _ _)⟩
          · exact ⟨fun hc => (hL2 e h).1 (hacked1 hc), (hL2 e h).2⟩

theorem processRooms_total (cfg : Config) (tro : String → CurlResult)
    (f : String → List RawMsg) :
    ∀ (rooms : List String) (st : PassState),
    ∃ st' : PassState, processRooms cfg tro (pureFetch f) st rooms = Except.ok st' ∧
      st.seen ⊆ st'.seen ∧
      st.acked ⊆ st'.acked ∧
      (∃ t, st'.newMsgs = st.newMsgs ++ t) ∧
      (∀ room ∈ rooms, ∀ m ∈ f room, mid_of m = "" ∨ mid_of m ∈ st'.seen) ∧
      (∃ L, st'.posts = st.posts ++ L ∧ (L.map PostEvent.mid).Nodup ∧
        ∀ e ∈ L, e.mid ∉ st.acked ∧ e.mid ∈ st'.acked) := by
  intro rooms
  induction rooms with
  | nil =>
    intro st
    exact ⟨st, rfl, subset_rfl, subset_rfl, ⟨[], by simp⟩, by simp,
      ⟨[], by simp, List.nodup_nil, by simp⟩⟩
  | cons room rooms ih =>
    intro st
    obtain ⟨st1, hpm, hseen1, hacked1, ⟨t1, hnew1⟩, hcov1, ⟨L1, hpost1, hnd1, hL1⟩⟩ :=
      processMsgs_total cfg room tro (f room) st
    obtain ⟨st', hms, hseen2, hacked2, ⟨t2, hnew2⟩, hcov2, ⟨L2, hpost2, hnd2, hL2⟩⟩ :=
      ih st1
    have heq : processRooms cfg tro (pureFetch f) st (room :: rooms) = Except.ok st' := by
      show (do
        let msgs ← pureFetch f room
        let st1 ← processMsgs cfg room tro st msgs
        processRooms cfg tro (pureFetch f) st1 rooms) = Except.ok st'
      show (do
        let st1 ← processMsgs cfg room tro st (f room)
        processRooms cfg tro (pureFetch f) st1 rooms) = Except.ok st'
      rw [hpm]
      exact hms
    refine ⟨st', heq, hseen1.trans hseen2, hacked1.trans hacked2,
      ⟨t1 ++ t2, by rw [hnew2, hnew1, List.append_assoc]⟩, ?_, ?_⟩
    · intro r hr mm hmm
      rcases List.mem_cons.mp hr with h | h
      · subst h
        rcases hcov1 mm hmm with h0 | h0
        · exact Or.inl h0
        · exact Or.inr (hseen2 h0)
      · exact hcov2 r h mm hmm
    · refine ⟨L1 ++ L2, by rw [hpost2, hpost1, List.append_assoc], ?_, ?_⟩
      · rw [List.map_append]
        rw [List.nodup_append]
        refine ⟨hnd1, hnd2, ?_⟩
        intro x hx1 hx2
        rcases List.mem_map.mp hx1 with ⟨e1, he1, hx1e⟩
        rcases List.mem_map.mp hx2 with ⟨e2, he2, hx2e⟩
        exact (hL2 e2 he2).1 (by rw [hx2e, ← hx1e]; exact (hL1 e1 he1).2)
      · intro e he
        rcases List.mem_append.mp he with h | h
        · exact ⟨(hL1 e h).1, hacked2 (hL1 e h).2⟩
        · exact ⟨fun hc => (hL2 e h).1 (hacked1 hc), (hL2 e h).2⟩

theorem processMsgs_all_skip (cfg : Config) (room : String) (tro : String → CurlResult) :
    ∀ (ms : List RawMsg) (st : PassState),
    (∀ m ∈ ms, mid_of m = "" ∨ mid_of m ∈ st.seen) →
    processMsgs cfg room tro st ms = Except.ok st := by
  intro ms
  induction ms with
  | nil => intro st _; rfl
  | cons m ms ih =>
    intro st h
    have h1 : processMessage cfg room tro st m = Except.ok st :=
      processMessage_skip cfg room tro st m (h m (List.mem_cons_self m ms))
    show (do
      let st1 ← processMessage cfg room tro st m
      processMsgs cfg room tro st1 ms) = Except.ok st
    rw [h1]
    exact ih st (fun mm hmm => h mm (List.mem_cons_of_mem m hmm))

theorem processRooms_all_skip (cfg : Config) (tro : String → CurlResult)
    (f : String → List RawMsg) :
    ∀ (rooms : List String) (st : PassState),
    (∀ room ∈ rooms, ∀ m ∈ f room, mid_of m = "" ∨ mid_of m ∈ st.seen) →
    processRooms cfg tro (pureFetch f) st rooms = Except.ok st := by
  intro rooms
  induction rooms with
  | nil => intro st _; rfl
  | cons room rooms ih =>
    intro st h
    have h1 : processMsgs cfg room tro st (f room) = Except.ok st :=
      processMsgs_all_skip cfg room tro (f room) st (h room (List.mem_cons_self room rooms))
    show (do
      let st1 ← processMsgs cfg room tro st (f room)
      processRooms cfg tro (pureFetch f) st1 rooms) = Except.ok st
    rw [h1]
    exact ih st (fun r hr => h r (List.mem_cons_of_mem room hr))

theorem runMulti_total (cfg : Config) :
    ∀ (ps : List PassInput) (s : Finset String × Finset String),
    ∃ res : (Finset String × Finset String) × List PostEvent,
      runMulti cfg ps s = Except.ok res ∧
      s.2 ⊆ res.1.2 ∧
      (res.2.map PostEvent.mid).Nodup ∧
      ∀ e ∈ res.2, e.mid ∉ s.2 ∧ e.mid ∈ res.1.2 := by
  intro ps
  induction ps with
  | nil =>
    intro s
    exact ⟨(s, []), rfl, subset_rfl, List.nodup_nil, by simp⟩
  | cons p ps ih =>
    intro s
    obtain ⟨st1, hpass, _, hacked1, _, _, ⟨L1, hpost1, hnd1, hL1⟩⟩ :=
      processRooms_total cfg p.tro p.fetch cfg.rooms ⟨s.1, s.2, [], []⟩
    have hL1' : st1.posts = L1 := by simpa using hpost1
    obtain ⟨⟨s2, log2⟩, hrec, hsub2, hnd2, hlog2⟩ := ih (st1.seen, st1.acked)
    have heq : runMulti cfg (p :: ps) s = Except.ok (s2, st1.posts ++ log2) := by
      obtain ⟨sa, sb⟩ := s
      show (do
        let st ← processRooms cfg p.tro (pureFetch p.fetch) ⟨sa, sb, [], []⟩ cfg.rooms
        let res ← runMulti cfg ps (st.seen, st.acked)
        Except.ok (res.1, st.posts ++ res.2)) = Except.ok (s2, st1.posts ++ log2)
      rw [hpass]
      show (do
        let res ← runMulti cfg ps (st1.seen, st1.acked)
        Except.ok (res.1, st1.posts ++ res.2)) = Except.ok (s2, st1.posts ++ log2)
      rw [hrec]
      rfl
    refine ⟨(s2, st1.posts ++ log2), heq, hacked1.trans hsub2, ?_, ?_⟩
    · rw [hL1', List.map_append, List.nodup_append]
      refine ⟨hnd1, hnd2, ?_⟩
      intro x hx1 hx2
      rcases List.mem_map.mp hx1 with ⟨e1, he1, hx1e⟩
      rcases List.mem_map.mp hx2 with ⟨e2, he2, hx2e⟩
      exact (hlog2 e2 he2).1 (by rw [hx2e, ← hx1e]; exact (hL1 e1 he1).2)
    · intro e he
      rcases List.mem_append.mp he with h | h
      · rw [hL1'] at h
        exact ⟨(hL1 e h).1, hsub2 (hL1 e h).2⟩
      · exact ⟨fun hc => (hlog2 e h).1 (hacked1 hc), (hlog2 e h).2⟩

/-- Claim C2: for any message identifier, the ack poster is invoked at most
once across any number of passes: the post log of a multi-pass run contains
no duplicate identifiers; an identifier already in `acked` at the start is
never posted for; every posted identifier is in `acked` immediately after
the step that posted it; and the per-message outcome is independent of the
transport result of the post (at-most-one-attempt, not delivery). -/
theorem C2_ack_at_most_once (cfg : Config) (ps : List PassInput)
    (s0 : Finset String × Finset String)
    (res : (Finset String × Finset String) × List PostEvent) (mid : String)
    (hrun : runMulti cfg ps s0 = Except.ok res) :
    ((res.2.map PostEvent.mid).count mid ≤ 1) ∧
    (mid ∈ s0.2 → (res.2.map PostEvent.mid).count mid = 0) ∧
    (∀ e ∈ res.2, e.mid ∈ res.1.2) ∧
    (∀ room tro st m st', processMessage cfg room tro st m = Except.ok st' →
      ∀ e ∈ st'.posts, e ∉ st.posts → e.mid ∈ st'.acked) ∧
    (∀ room tro tro' st m, processMessage cfg room tro st m =
      processMessage cfg room tro' st m) := by
  obtain ⟨res', hrun', hsub, hnd, hlog⟩ := runMulti_total cfg ps s0
  rw [hrun] at hrun'
  injection hrun' with h
  subst h
  refine ⟨List.nodup_iff_count_le_one.mp hnd mid, ?_, fun e he => (hlog e he).2, ?_,
    processMessage_tro cfg⟩
  · intro hmem
    rw [List.count_eq_zero]
    intro hc
    rcases List.mem_map.mp hc with ⟨e, he, hemid⟩
    exact (hlog e he).1 (hemid ▸ hmem)
  · intro room tro st m st' hpm e he hnotin
    obtain ⟨st'', hpm', _, _, _, _, hdich⟩ := processMessage_total cfg room tro st m
    rw [hpm] at hpm'
    injection hpm' with h2
    subst h2
    rcases hdich with ⟨_, hp⟩ | ⟨_, ha, hp⟩
    · exact absurd (hp ▸ he) hnotin
    · rw [hp] at he
      rcases List.mem_append.mp he with h | h
      · exact absurd h hnotin
      · rw [List.mem_singleton.mp h, ha]
        exact Finset.mem_insert_self _ _

/-- Claim C3: running a pass twice in succession over the same fixed set of
channel messages, the second pass buffers no messages, leaves the contents
of `seen` and `acked` unchanged, posts no acknowledgment, produces the
terminal signal "NONE", and appends nothing to the inbox log. -/
theorem C3_second_pass_idempotent (cfg : Config) (f : String → List RawMsg)
    (tro tro2 : String → CurlResult) (seen0 acked0 : Finset String) (st1 : PassState)
    (h1 : processRooms cfg tro (pureFetch f) ⟨seen0, acked0, [], []⟩ cfg.rooms =
      Except.ok st1) :
    ∃ st2 : PassState,
      processRooms cfg tro2 (pureFetch f) ⟨st1.seen, st1.acked, [], []⟩ cfg.rooms =
        Except.ok st2 ∧
      st2.newMsgs = [] ∧ st2.seen = st1.seen ∧ st2.acked = st1.acked ∧ st2.posts = [] ∧
      signal st2.newMsgs = "NONE" ∧ inboxWrites st2.newMsgs = [] := by
  obtain ⟨st1', h1', _, _, _, hcov, _⟩ :=
    processRooms_total cfg tro f cfg.rooms ⟨seen0, acked0, [], []⟩
  rw [h1] at h1'
  injection h1' with h
  subst h
  refine ⟨⟨st1.seen, st1.acked, [], []⟩, ?_, rfl, rfl, rfl, rfl, rfl, rfl⟩
  exact processRooms_all_skip cfg tro2 f cfg.rooms ⟨st1.seen, st1.acked, [], []⟩ hcov

/-- Claim C4: during a pass, `seen` only ever grows; every processed
message with a non-empty identifier ends with its identifier in `seen`
regardless of the outcome of the self-filter, listen-filter or
ack-eligibility checks (the identifier is recorded before them); and a
message whose identifier is already in `seen` leaves the state untouched,
so a message rejected by any later step is never reconsidered. -/
theorem C4_seen_first_and_monotone (cfg : Config) (tro : String → CurlResult) :
    (∀ room st m st', processMessage cfg room tro st m = Except.ok st' →
      st.seen ⊆ st'.seen) ∧
    (∀ room st m st', mid_of m ≠ "" → processMessage cfg room tro st m = Except.ok st' →
      mid_of m ∈ st'.seen) ∧
    (∀ room st m, mid_of m ∈ st.seen → processMessage cfg room tro st m = Except.ok st) ∧
    (∀ f st rooms st', processRooms cfg tro (pureFetch f) st rooms = Except.ok st' →
      st.seen ⊆ st'.seen) := by
  refine ⟨?_, ?_, ?_, ?_⟩
  · intro room st m st' hpm
    obtain ⟨st'', hpm', hs, _⟩ := processMessage_total cfg room tro st m
    rw [hpm] at hpm'
    injection hpm' with h
    subst h
    exact hs
  · intro room st m st' hne hpm
    obtain ⟨st'', hpm', _, _, hmid, _⟩ := processMessage_total cfg room tro st m
    rw [hpm] at hpm'
    injection hpm' with h
    subst h
    exact hmid hne
  · intro room st m hmem
    exact processMessage_skip cfg room tro st m (Or.inr hmem)
  · intro f st rooms st' hpr
    obtain ⟨st'', hpr', hs, _⟩ := processRooms_total cfg tro f rooms st
    rw [hpr] at hpr'
    injection hpr' with h
    subst h
    exact hs

/-- Claim C5: `_post_ack` runs curl with `check=False`, so it returns
normally for every transport outcome; consequently a pass over any rooms,
fetches and transport outcomes always completes, and `main` (with a
credential present) still persists `seen`/`acked`, appends the inbox
buffer and prints the terminal signal. -/
theorem C5_transport_failures_swallowed :
    (∀ room text tr, post_ack room text tr = Except.ok ()) ∧
    (∀ cfg tro f st rooms, ∃ st' : PassState,
      processRooms cfg tro (pureFetch f) st rooms = Except.ok st') ∧
    (∀ cfg k f tro sn ak, k ≠ "" → ∃ st' : PassState,
      mainRun cfg k (pureFetch f) tro sn ak =
        Except.ok ⟨0, [signal st'.newMsgs], some st'.seen, some st'.acked,
          inboxWrites st'.newMsgs, st'.posts⟩) := by
  refine ⟨post_ack_eq, ?_, ?_⟩
  · intro cfg tro f st rooms
    obtain ⟨st', h, _⟩ := processRooms_total cfg tro f rooms st
    exact ⟨st', h⟩
  · intro cfg k f tro sn ak hk
    obtain ⟨st', h, _⟩ := processRooms_total cfg tro f cfg.rooms ⟨sn, ak, [], []⟩
    refine ⟨st', ?_⟩
    unfold mainRun
    rw [if_neg hk, h]

/-- Claim C6: the process always exits with status 0 and its stdout is
exactly one line, "NEW" or "NONE"; a missing credential forces "NONE", and
any exception reaching the top-level handler prints "NONE" and still exits
with status 0. -/
theorem C6_exit_contract (cfg : Config) (k : String)
    (fetch : String → Except String (List RawMsg)) (tro : String → CurlResult)
    (sn ak : Finset String) :
    (program cfg k fetch tro sn ak).1 = 0 ∧
    ((program cfg k fetch tro sn ak).2 = ["NEW"] ∨
      (program cfg k fetch tro sn ak).2 = ["NONE"]) ∧
    (k = "" → (program cfg k fetch tro sn ak).2 = ["NONE"]) ∧
    (∀ e, topHandler (Except.error e) = (0, ["NONE"])) := by
  unfold program mainRun
  by_cases hk : k = ""
  · rw [if_pos hk]
    exact ⟨rfl, Or.inr rfl, fun _ => rfl, fun _ => rfl⟩
  · rw [if_neg hk]
    cases hpr : processRooms cfg tro fetch ⟨sn, ak, [], []⟩ cfg.rooms with
    | error e => exact ⟨rfl, Or.inr rfl, fun h => absurd h hk, fun _ => rfl⟩
    | ok st =>
      by_cases hn : st.newMsgs = []
      · simp [topHandler, signal, hn, hk]
      · simp [topHandler, signal, hn, hk]

theorem should_ack_as_and (cfg : Config) (handle author_handle body : String) :
    should_ack cfg handle author_handle body =
      ((pyIn cfg.ownerHandle (pyLower author_handle) ||
        pyIn cfg.ownerHandle (pyLower handle)) &&
       message_targets_me cfg body && looks_like_task_request body) := by
  simp only [should_ack]
  cases h1 : (pyIn cfg.ownerHandle (pyLower author_handle) ||
      pyIn cfg.ownerHandle (pyLower handle)) <;>
    cases h2 : message_targets_me cfg body <;> simp

theorem targets_me_iff (cfg : Config) (body : String) :
    message_targets_me cfg body = true ↔
      (extract_mentions body = [] ∨
        ∃ men ∈ extract_mentions body, men ∈ cfg.myHandles.map normHandle) := by
  simp only [message_targets_me]
  by_cases hm : extract_mentions body = []
  · simp [hm]
  · rw [if_pos (by simp [List.isEmpty_iff, hm])]
    simp only [List.any_eq_true, List.elem_iff]
    exact ⟨fun h => Or.inr h, fun h => h.resolve_left hm⟩

theorem pyIn_empty_hay (n : String) (hn : n ≠ "") : pyIn n "" = false := by
  have hd : n.data ≠ [] := fun h => hn (String.ext h)
  simp only [pyIn, listHas]
  exact beq_eq_false_iff_ne.mpr (by exact fun h => hd (by exact h))

theorem task_request_iff (body : String) :
    looks_like_task_request body = true ↔
      ∃ hint ∈ TASK_HINTS, pyIn hint (pyLower (pyStrip body)) = true := by
  simp only [looks_like_task_request]
  by_cases ht : pyLower (pyStrip body) = ""
  · rw [if_pos (by simp [ht])]
    constructor
    · intro h
      exact absurd h (by simp)
    · rintro ⟨hint, hmem, hpy⟩
      rw [ht] at hpy
      have hne : hint ≠ "" := by
        fin_cases hmem <;> decide
      rw [pyIn_empty_hay hint hne] at hpy
      exact absurd hpy (by simp)
  · rw [if_neg (by simp [ht])]
    simp only [List.any_eq_true]

theorem strip_empty_lower (body : String) (h : pyStrip body = "") :
    pyLower (pyStrip body) = "" := by
  rw [h]
  rfl

/-- Claim C7: `_should_ack` returns true exactly when (a) the configured
(lowercased) owner identifier is a case-insensitive substring of the sender
or author handle, (b) the body contains no @-mentions at all or its mention
set includes one of the agent's normalized self-handles, and (c) the
lowercased, trimmed body contains at least one phrase of the fixed
task-hint set; a body that is empty after trimming returns false. -/
theorem C7_should_ack_characterization (cfg : Config)
    (hown : pyLower cfg.ownerHandle = cfg.ownerHandle)
    (handle author_handle body : String) :
    (should_ack cfg handle author_handle body = true ↔
      ((pyIn (pyLower cfg.ownerHandle) (pyLower handle) = true ∨
        pyIn (pyLower cfg.ownerHandle) (pyLower author_handle) = true) ∧
       (extract_mentions body = [] ∨
        ∃ men ∈ extract_mentions body, men ∈ cfg.myHandles.map normHandle) ∧
       (∃ hint ∈ TASK_HINTS, pyIn hint (pyLower (pyStrip body)) = true))) ∧
    (pyStrip body = "" → should_ack cfg handle author_handle body = false) := by
  constructor
  · rw [should_ack_as_and, hown]
    simp only [Bool.and_eq_true, Bool.or_eq_true]
    rw [targets_me_iff, task_request_iff]
    constructor
    · rintro ⟨⟨hfo, htg⟩, htask⟩
      exact ⟨hfo.symm.imp id id, htg, htask⟩
    · rintro ⟨hfo, htg, htask⟩
      exact ⟨⟨hfo.symm.imp id id, htg⟩, htask⟩
  · intro hstrip
    rw [should_ack_as_and]
    have : looks_like_task_request body = false := by
      simp only [looks_like_task_request]
      rw [if_pos (by rw [strip_empty_lower body hstrip]; rfl)]
    rw [this]
    simp

/-- Claim C8 (refuted at this input): the claim reads the HUMANS_ONLY bot
test as applying to the *sender's* handle, but `_is_bot` prefers the author
handle for the bot-set lookup: with bot-handle set {"bot"}, sender "bob"
and author "bot", the code rejects the message while the claim's reading
admits it. -/
theorem C8_counterexample :
    passes_listen_filter c8Config "bob" "bot" "" = false ∧
    passes_listen_filter_spec c8Config "bob" "bot" "" = true := by decide

/-- Claim C8 (amended): the listen filter behaves as the claim states for
ALL, unknown policies, TAGGED and OWNER_ONLY; under HUMANS_ONLY the
bot-set membership is tested on the author handle when non-empty (else the
sender handle), normalized, while the leading-sigil test is on the sender
handle. -/
theorem C8_listen_filter_amended (cfg : Config)
    (hown : pyLower cfg.ownerHandle = cfg.ownerHandle)
    (sender author_handle body : String) :
    passes_listen_filter cfg sender author_handle body =
      passes_listen_filter_amended cfg sender author_handle body := by
  unfold passes_listen_filter passes_listen_filter_amended is_bot
  rw [hown]
  by_cases m1 : cfg.listenMode == "all"
  · simp [m1]
  · rw [if_neg m1, if_neg m1]
    by_cases m2 : cfg.listenMode == "humans"
    · rw [if_pos m2, if_pos m2]
      congr 1
      cases hb : cfg.botHandles with
      | nil => simp [strStarts]
      | cons b bs =>
        by_cases hc : ((b :: bs).map normHandle).contains
            (normHandle (pyOrS author_handle (pyOrS sender ""))) <;>
          by_cases hs : strStarts "@" sender <;> simp [hc, hs]
    · rw [if_neg m2, if_neg m2]
      by_cases m3 : cfg.listenMode == "tagged"
      · simp [m3]
      · rw [if_neg m3, if_neg m3]
        by_cases m4 : cfg.listenMode == "owner"
        · rw [if_pos m4, if_pos m4]
          exact Bool.or_comm _ _
        · simp [m4]

/-- Claim C9: a non-empty new-message buffer collected in fetch order
[A, B, C] is appended to the inbox log in reversed order — C before B
before A — each entry followed by a separator line containing exactly
"---", and the terminal signal is "NEW" iff the buffer is non-empty. -/
theorem C9_reversed_inbox_append (l : List String) (a b c : String) :
    inboxWrites [a, b, c] = [c ++ "\n---\n", b ++ "\n---\n", a ++ "\n---\n"] ∧
    (l ≠ [] → inboxWrites l = l.reverse.map (fun nm => nm ++ "\n---\n")) ∧
    (signal l = "NEW" ↔ l ≠ []) := by
  refine ⟨by simp [inboxWrites], fun h => by simp [inboxWrites, h], ?_⟩
  unfold signal
  by_cases h : l = []
  · simp [h]
  · simp [h]

/-- Claim C1 (refuted — code bug): the spec requires `save(source, ids,
retain=K)` to persist exactly the K most-recently-inserted identifiers
(FIFO eviction), but the store is a Python `set`, whose enumeration order
is hash-dependent rather than insertion order: for the insertion sequence
"idA" then "idB", the enumeration ("idB", "idA") is a legitimate set
order (same elements, no duplicates), yet saving it with retain 1
persists {"idA"} — the oldest-inserted — instead of the required
{"idB"}. -/
theorem C1_retention_not_fifo :
    (["idB", "idA"] : List String).toFinset = (["idA", "idB"] : List String).toFinset ∧
    (["idB", "idA"] : List String).Nodup ∧
    load_id_set (some (save_id_set ["idB", "idA"] 1)) = {"idA"} ∧
    ("idB" : String) ∉ load_id_set (some (save_id_set ["idB", "idA"] 1)) := by decide

theorem pyLastSlice_of_le (l : List String) (k : Nat) (h : l.length ≤ k) :
    pyLastSlice l k = l := by
  unfold pyLastSlice
  by_cases hk : k = 0
  · rw [if_pos hk]
  · rw [if_neg hk, Nat.sub_eq_zero_of_le h, List.drop_zero]

theorem splitLines_line (x r : List Char) (hx : '\n' ∉ x) :
    splitLines (x ++ '\n' :: r) = x :: splitLines r := by
  induction x with
  | nil => simp [splitLines]
  | cons c cs ih =>
    have hc : ¬(c = '\n') := fun h => hx (h ▸ List.mem_cons_self c cs)
    have hcs : '\n' ∉ cs := fun h => hx (List.mem_cons_of_mem c h)
    rw [List.cons_append]
    conv_lhs => unfold splitLines
    rw [if_neg hc, ih hcs]

theorem fileOfLines_cons (v : String) (vs : List String) :
    fileOfLines (v :: vs) = v.data ++ '\n' :: fileOfLines vs := by
  simp [fileOfLines]

theorem splitLines_fileOfLines (vs : List String) (h : ∀ v ∈ vs, '\n' ∉ v.data) :
    splitLines (fileOfLines vs) = vs.map String.data ++ [[]] := by
  induction vs with
  | nil => rfl
  | cons v vs ih =>
    rw [fileOfLines_cons,
      splitLines_line v.data _ (h v (List.mem_cons_self v vs)),
      ih (fun w hw => h w (List.mem_cons_of_mem v hw))]
    rfl

/-- Claim C10: save/load of a persisted id set round-trips on contents:
for every collection of identifiers that are non-empty, newline-free and
unchanged by stripping, with at most `keep_last` distinct elements, the
file written by `_save_id_set` from any set-enumeration order loads back
as exactly that collection. -/
theorem C10_save_load_round_trip (enum : List String) (keep_last : Nat)
    (hnd : enum.Nodup)
    (hids : ∀ v ∈ enum, v ≠ "" ∧ '\n' ∉ v.data ∧ pyStrip v = v)
    (hlen : enum.length ≤ keep_last) :
    load_id_set (some (save_id_set enum keep_last)) = enum.toFinset := by
  rw [show load_id_set (some (save_id_set enum keep_last)) =
      ((((splitLines (save_id_set enum keep_last)).map stripChars).filter
        (fun l => l ≠ [])).map (fun l => (⟨l⟩ : String))).toFinset from rfl]
  unfold save_id_set
  rw [pyLastSlice_of_le enum keep_last hlen,
    splitLines_fileOfLines enum (fun v hv => (hids v hv).2.1)]
  rw [List.map_append, List.filter_append, List.map_map]
  have h1 : enum.map (stripChars ∘ String.data) = enum.map String.data := by
    refine List.map_congr_left ?_
    intro v hv
    show stripChars v.data = v.data
    exact congrArg String.data ((hids v hv).2.2)
  rw [h1]
  have h2 : (enum.map String.data).filter (fun l => l ≠ []) = enum.map String.data := by
    refine List.filter_eq_self.mpr ?_
    intro l hl
    rcases List.mem_map.mp hl with ⟨v, hv, hlv⟩
    subst hlv
    exact decide_eq_true (fun hc => (hids v hv).1 (String.ext hc))
  rw [h2]
  have h3 : (([[]] : List (List Char)).map stripChars).filter (fun l => l ≠ []) = [] := by
    rfl
  rw [h3, List.append_nil, List.map_map]
  have h4 : ((fun l => (⟨l⟩ : String)) ∘ String.data) = id := funext (fun _ => rfl)
  rw [h4, List.map_id]


theorem C2_ack_at_most_once_witness :
    ((([⟨"m1", "room1", ackText wCfg⟩] : List PostEvent).map PostEvent.mid).count "m1" ≤ 1) :=
  (C2_ack_at_most_once wCfg [wPass, wPass] (∅, ∅)
    (({"m1"}, {"m1"}), [⟨"m1", "room1", ackText wCfg⟩]) "m1" (by rfl)).1

theorem C3_second_pass_idempotent_witness :
    ∃ st2 : PassState,
      processRooms wCfg wTr (pureFetch (fun _ => [wMsg]))
          ⟨wSt1.seen, wSt1.acked, [], []⟩ wCfg.rooms = Except.ok st2 ∧
      st2.newMsgs = [] ∧ st2.seen = wSt1.seen ∧ st2.acked = wSt1.acked ∧ st2.posts = [] ∧
      signal st2.newMsgs = "NONE" ∧ inboxWrites st2.newMsgs = [] :=
  C3_second_pass_idempotent wCfg (fun _ => [wMsg]) wTr wTr ∅ ∅ wSt1 (by rfl)

theorem C4_seen_first_and_monotone_witness : mid_of wMsg ∈ wSt1.seen :=
  (C4_seen_first_and_monotone wCfg wTr).2.1 "room1" ⟨∅, ∅, [], []⟩ wMsg wSt1
    (by decide) (by rfl)

theorem C5_transport_failures_swallowed_witness :
    ∃ st' : PassState,
      mainRun wCfg "key" (pureFetch (fun _ => [wMsg])) wTr ∅ ∅ =
        Except.ok ⟨0, [signal st'.newMsgs], some st'.seen, some st'.acked,
          inboxWrites st'.newMsgs, st'.posts⟩ :=
  C5_transport_failures_swallowed.2.2 wCfg "key" (fun _ => [wMsg]) wTr ∅ ∅ (by decide)

theorem C6_exit_contract_witness :
    (program wCfg "" (pureFetch (fun _ => [wMsg])) wTr ∅ ∅).2 = ["NONE"] :=
  (C6_exit_contract wCfg "" (pureFetch (fun _ => [wMsg])) wTr ∅ ∅).2.2.1 rfl

theorem C7_should_ack_characterization_witness :
    should_ack wCfg "petrus" "petrus" "can you fix this" = true :=
  (C7_should_ack_characterization wCfg (by decide) "petrus" "petrus" "can you fix this").1.mpr
    ⟨Or.inl (by decide), Or.inl (by decide), ⟨"can you", by decide, by decide⟩⟩

theorem C8_listen_filter_amended_witness :
    passes_listen_filter c8Config "bob" "@zed" "" =
      passes_listen_filter_amended c8Config "bob" "@zed" "" :=
  C8_listen_filter_amended c8Config (by decide) "bob" "@zed" ""

theorem C9_reversed_inbox_append_witness :
    inboxWrites ["A", "B"] = (["A", "B"] : List String).reverse.map (fun nm => nm ++ "\n---\n") :=
  (C9_reversed_inbox_append ["A", "B"] "x" "y" "z").2.1 (by decide)

theorem C10_save_load_round_trip_witness :
    load_id_set (some (save_id_set ["a", "b"] 1000)) = (["a", "b"] : List String).toFinset :=
  C10_save_load_round_trip ["a", "b"] 1000 (by decide) (by decide) (by decide)
